import Mathlib

/-!
# Verification of the basket optimizer

Shallow embedding of `optimize_basket` from `src/basket_optimizer_app.py`
(the BasketOptimizer component of the customer-segmentation-and-price-prediction
repository), together with proofs about the claims of its specification.

Modelling choices:
* Prices are Python floats in the source; we model them as exact rationals `ℚ`.
  All quantities involved (sums, means of small lists, maxima) are exact in the
  scenarios the claims describe, so `ℚ` is the faithful idealization.
* A pandas DataFrame cell that is `NaN` (product not sold) is modelled as
  `Option ℚ` with `none` for the missing cell; `dropna` is `filterMap`.
* `df.mean()` is the per-column mean skipping `NaN` (and is itself `NaN` on an
  all-`NaN` column); `Series.mean` skips `NaN` entries.  So
  `df.mean().mean()` is the mean, over the columns having at least one defined
  cell, of the per-column means.  We model a `NaN` aggregate as `none`.
* `df.max().max()` is likewise the max over per-column maxima.
* `pandas.sort_values('total_price')` sorts ascending by total; its default
  `kind='quicksort'` is documented by pandas as not stable, so the order of
  entries with EQUAL totals is not specified by the library contract (numpy
  keeps equal keys in input order only on its small-array insertion-sort
  path, below 16 elements).  The embedding must pick one executable sort; we
  use an ascending insertion sort, which realizes one concrete tie order.
  Only properties independent of the tie order (membership, emptiness,
  per-entry field values, equal-total outputs under entrywise rewriting) are
  transferred to the program; no theorem below asserts a tie order of the
  program.
* Python `len(product_list) - len(prices)` is an `Int` subtraction, so
  `missing` is modelled in `ℤ`.
-/

/-- The penalty policy argument of `optimize_basket`
(the string values `'exclude' | 'average' | 'highest'` in the source). -/
inductive Penalty where
  | exclude
  | average
  | highest
deriving DecidableEq, Repr

/-- A matrix row: product name together with its cells, one `Option ℚ` per
supermarket column (`none` = `NaN` = not sold). -/
abbrev MatrixRow := String × List (Option ℚ)

/-- The price matrix: the supermarket column labels and the product rows, as in
the `price_matrix` DataFrame (rows = products, columns = supermarkets). -/
structure PriceMatrix where
  cols : List String
  rows : List MatrixRow
deriving Repr

/-- Cell of a row at column index `j` (`none` when absent or out of range). -/
def cellAt (r : MatrixRow) (j : ℕ) : Option ℚ :=
  r.2.getD j none

/-- `price_matrix.loc[price_matrix.index.isin(product_list)]`: the rows whose
product name occurs in the basket, kept in matrix order. -/
def selectedRows (m : PriceMatrix) (product_list : List String) : List MatrixRow :=
  m.rows.filter (fun r => decide (r.1 ∈ product_list))

/-- `selected_products[supermarket].dropna()` keeping the product names:
the `(product, price)` pairs defined at column `j` among the selected rows
(the source keeps them as `prices`, later exported by `prices.to_dict()`). -/
def colPairs (sel : List MatrixRow) (j : ℕ) : List (String × ℚ) :=
  sel.filterMap (fun r => (cellAt r j).map (fun v => (r.1, v)))

/-- The defined values of column `j` among the selected rows. -/
def colVals (sel : List MatrixRow) (j : ℕ) : List ℚ :=
  (colPairs sel j).map Prod.snd

/-- `Series.mean()`: `NaN` (here `none`) on an empty series, else the
arithmetic mean. -/
def listMean (l : List ℚ) : Option ℚ :=
  if l.isEmpty then none else some (l.sum / (l.length : ℚ))

/-- `Series.max()`: `NaN` (here `none`) on an empty series, else the maximum. -/
def listMax : List ℚ → Option ℚ
  | [] => none
  | x :: xs =>
    match listMax xs with
    | none => some x
    | some m => some (max x m)

/-- Line 83 of the source:
`avg_product_price = price_matrix.loc[price_matrix.index.isin(product_list)].mean().mean()`.
`DataFrame.mean()` is the per-column mean (skipping `NaN`, itself `NaN` on an
all-`NaN` column) and the outer `Series.mean()` skips those `NaN` entries, so
this is the mean of the per-column means over columns having a defined cell. -/
def avgProductPrice (m : PriceMatrix) (product_list : List String) : Option ℚ :=
  listMean ((List.range m.cols.length).filterMap
    (fun j => listMean (colVals (selectedRows m product_list) j)))

/-- Line 100 of the source:
`max_price = price_matrix.loc[price_matrix.index.isin(product_list)].max().max()`:
the max of the per-column maxima over the selected rows. -/
def maxProductPrice (m : PriceMatrix) (product_list : List String) : Option ℚ :=
  listMax ((List.range m.cols.length).filterMap
    (fun j => listMax (colVals (selectedRows m product_list) j)))

/-- One entry of `supermarket_details` / one row of `results_df`. -/
structure MarketEntry where
  name : String
  total : ℚ
  available : ℕ
  missing : ℤ
  products : List (String × ℚ)
  has_penalty : Bool
deriving DecidableEq, Repr

/-- The body of the `for supermarket in selected_products.columns` loop for the
column with index `j` and label `name`: `none` when the supermarket is skipped
(either `only_complete` with a missing product, or no available price at all),
`some` entry otherwise.  A `NaN` penalty base (`none`) is collapsed with
`Option.getD 0`; this is harmless because the branch using it requires
`0 < prices.length`, which forces the base to be defined (proved below in
`avgProductPrice_isSome_of_colVals_ne_nil`). -/
def mkEntry (product_list : List String) (m : PriceMatrix)
    (only_complete : Bool) (pm : Penalty) (j : ℕ) (name : String) :
    Option MarketEntry :=
  let prices := colPairs (selectedRows m product_list) j
  let missing : ℤ := (product_list.length : ℤ) - (prices.length : ℤ)
  if only_complete = true ∧ 0 < missing then none
  else if 0 < prices.length then
    let base : ℚ := (prices.map Prod.snd).sum
    let total : ℚ :=
      if 0 < missing ∧ pm = Penalty.average then
        base + (missing : ℚ) * ((avgProductPrice m product_list).getD 0)
      else if 0 < missing ∧ pm = Penalty.highest then
        base + (missing : ℚ) * ((maxProductPrice m product_list).getD 0)
      else base
    some { name := name, total := total, available := prices.length,
           missing := missing, products := prices,
           has_penalty := decide (0 < missing) && decide (pm ≠ Penalty.exclude) }
  else none

/-- The loop over the supermarket columns, carrying the column index:
collects the recorded entries in column order (Python dicts preserve insertion
order, so `supermarket_details` and hence `results_df` is in column order). -/
def recordedAux (product_list : List String) (m : PriceMatrix)
    (only_complete : Bool) (pm : Penalty) : ℕ → List String → List MarketEntry
  | _, [] => []
  | j, c :: cs =>
    match mkEntry product_list m only_complete pm j c with
    | some e => e :: recordedAux product_list m only_complete pm (j + 1) cs
    | none => recordedAux product_list m only_complete pm (j + 1) cs

/-- The rows of `results_df` before sorting, in original column order. -/
def recordedEntries (product_list : List String) (m : PriceMatrix)
    (only_complete : Bool) (pm : Penalty) : List MarketEntry :=
  recordedAux product_list m only_complete pm 0 m.cols

/-- Insertion step of the embedded sort: the entry lands before the first
strictly larger total. -/
def insertEntry (x : MarketEntry) : List MarketEntry → List MarketEntry
  | [] => [x]
  | y :: ys => if y.total < x.total then y :: insertEntry x ys else x :: y :: ys

/-- `results_df.sort_values('total_price')`: ascending sort by total.  The
tie order realized here (insertion order) is one concrete choice; pandas'
default quicksort does not document a tie order (see the module note). -/
def sortEntries : List MarketEntry → List MarketEntry
  | [] => []
  | x :: xs => insertEntry x (sortEntries xs)

/-- `optimize_basket(product_list, price_matrix, only_complete, penalty_method)`:
the ranked result rows, ascending by total price. -/
def optimize_basket (product_list : List String) (m : PriceMatrix)
    (only_complete : Bool) (pm : Penalty) : List MarketEntry :=
  sortEntries (recordedEntries product_list m only_complete pm)

/-- The worked example of the spec:
`matrix = {Milk: {A:1.00, B:1.20}, Bread: {A:2.00}}`. -/
def exMatrix : PriceMatrix :=
  { cols := ["A", "B"],
    rows := [("Milk", [some 1, some (6/5)]), ("Bread", [some 2, none])] }

/-- A matrix whose only basket-relevant cell is absent: the selected subset
for the basket `["Milk"]` has no defined cell at all. -/
def noCellMatrix : PriceMatrix :=
  { cols := ["A"], rows := [("Milk", [none]), ("Rice", [some 3])] }

/-- Modelled from the spec (its description of the `average` penalty base):
the arithmetic mean of every defined cell value across the selected rows,
flattened across products and supermarkets.  This follows the specification
text, not the source; it is stated only to be compared against the source's
`avgProductPrice` (which is pandas' `.mean().mean()`, the mean of the
per-column means). -/
def specFlatAverage (m : PriceMatrix) (product_list : List String) : Option ℚ :=
  listMean (((List.range m.cols.length).map
    (fun j => colVals (selectedRows m product_list) j)).flatten)

/-- Combination of two optional maxima, as produced by `Series.max` on the
concatenation of two series. -/
def maxComb : Option ℚ → Option ℚ → Option ℚ
  | none, b => b
  | some a, none => some a
  | some a, some b => some (max a b)

theorem penalty_average_ne_exclude : Penalty.average ≠ Penalty.exclude := by
  intro h
  exact Penalty.noConfusion h

theorem penalty_highest_ne_exclude : Penalty.highest ≠ Penalty.exclude := by
  intro h
  exact Penalty.noConfusion h

theorem penalty_highest_ne_average : Penalty.highest ≠ Penalty.average := by
  intro h
  exact Penalty.noConfusion h

theorem penalty_exclude_ne_average : Penalty.exclude ≠ Penalty.average := by
  intro h
  exact Penalty.noConfusion h

theorem penalty_exclude_ne_highest : Penalty.exclude ≠ Penalty.highest := by
  intro h
  exact Penalty.noConfusion h

theorem maxComb_assoc (a b c : Option ℚ) :
    maxComb (maxComb a b) c = maxComb a (maxComb b c) := by
  cases a <;> cases b <;> cases c <;> simp [maxComb, max_assoc]

theorem listMax_cons (x : ℚ) (xs : List ℚ) :
    listMax (x :: xs) = maxComb (some x) (listMax xs) := by
  cases h : listMax xs <;> simp [listMax, h, maxComb]

theorem listMax_append (l₁ l₂ : List ℚ) :
    listMax (l₁ ++ l₂) = maxComb (listMax l₁) (listMax l₂) := by
  induction l₁ with
  | nil => rfl
  | cons x xs ih =>
    rw [List.cons_append, listMax_cons, ih, ← maxComb_assoc, ← listMax_cons]

/-- The max of the per-column maxima equals the flat max over the
concatenation of the columns: `df.max().max()` is the global max over every
defined cell. -/
theorem listMax_flatten (ls : List (List ℚ)) :
    listMax ls.flatten = listMax (ls.filterMap listMax) := by
  induction ls with
  | nil => rfl
  | cons l ls ih =>
    rw [List.flatten_cons, listMax_append, ih, List.filterMap_cons]
    cases h : listMax l with
    | none => rfl
    | some a => rw [listMax_cons]

theorem listMax_eq_none_iff (l : List ℚ) : listMax l = none ↔ l = [] := by
  induction l with
  | nil => simp [listMax]
  | cons x xs ih => cases h : listMax xs <;> simp [listMax, h]

theorem listMax_mem {l : List ℚ} {a : ℚ} (h : listMax l = some a) : a ∈ l := by
  induction l generalizing a with
  | nil => simp [listMax] at h
  | cons x xs ih =>
    simp only [listMax] at h
    cases hx : listMax xs with
    | none =>
      rw [hx] at h
      simp_all
    | some m =>
      rw [hx] at h
      obtain rfl : max x m = a := by simpa using h
      rcases max_choice x m with h1 | h1 <;> rw [h1]
      · simp
      · simp [ih hx]

theorem listMean_eq_none_iff (l : List ℚ) : listMean l = none ↔ l = [] := by
  simp [listMean, List.isEmpty_iff]

theorem listMean_nonneg {l : List ℚ} {a : ℚ} (hl : ∀ v ∈ l, 0 ≤ v)
    (h : listMean l = some a) : 0 ≤ a := by
  unfold listMean at h
  split at h
  · exact absurd h (by simp)
  · obtain rfl : l.sum / (l.length : ℚ) = a := by simpa using h
    exact div_nonneg (List.sum_nonneg hl) (by positivity)

theorem mem_insertEntry {x a : MarketEntry} {l : List MarketEntry} :
    a ∈ insertEntry x l ↔ a = x ∨ a ∈ l := by
  induction l with
  | nil => simp [insertEntry]
  | cons y ys ih =>
    unfold insertEntry
    split
    · simp only [List.mem_cons, ih]
      tauto
    · simp only [List.mem_cons]

theorem mem_sortEntries {a : MarketEntry} {l : List MarketEntry} :
    a ∈ sortEntries l ↔ a ∈ l := by
  induction l with
  | nil => simp [sortEntries]
  | cons x xs ih => simp [sortEntries, mem_insertEntry, ih]

/-- Everything recorded for a supermarket by the loop body, read back from a
successful `mkEntry`: the entry's fields are the column's available pairs,
counts, penalty flag, and the penalty-adjusted total, and the supermarket was
neither skipped by `only_complete` nor empty. -/
theorem mkEntry_some_elim {pl : List String} {m : PriceMatrix} {oc : Bool}
    {pm : Penalty} {j : ℕ} {c : String} {e : MarketEntry}
    (h : mkEntry pl m oc pm j c = some e) :
    e.name = c ∧
    e.products = colPairs (selectedRows m pl) j ∧
    e.available = (colPairs (selectedRows m pl) j).length ∧
    e.missing = (pl.length : ℤ) - ((colPairs (selectedRows m pl) j).length : ℤ) ∧
    0 < (colPairs (selectedRows m pl) j).length ∧
    ¬(oc = true ∧ 0 < e.missing) ∧
    e.has_penalty = (decide (0 < e.missing) && decide (pm ≠ Penalty.exclude)) ∧
    e.total =
      (if 0 < e.missing ∧ pm = Penalty.average then
        ((colPairs (selectedRows m pl) j).map Prod.snd).sum +
          (e.missing : ℚ) * ((avgProductPrice m pl).getD 0)
      else if 0 < e.missing ∧ pm = Penalty.highest then
        ((colPairs (selectedRows m pl) j).map Prod.snd).sum +
          (e.missing : ℚ) * ((maxProductPrice m pl).getD 0)
      else ((colPairs (selectedRows m pl) j).map Prod.snd).sum) := by
  unfold mkEntry at h
  simp only at h
  split at h
  · exact absurd h (by simp)
  · rename_i hskip
    split at h
    · rename_i hpos
      obtain rfl : _ = e := Option.some.inj h
      exact ⟨rfl, rfl, rfl, rfl, hpos, hskip, rfl, rfl⟩
    · exact absurd h (by simp)

/-- The loop collects exactly the entries produced by `mkEntry` on the columns,
indexed from the running offset. -/
theorem mem_recordedAux {pl : List String} {m : PriceMatrix} {oc : Bool}
    {pm : Penalty} {e : MarketEntry} :
    ∀ {j : ℕ} {cs : List String},
    e ∈ recordedAux pl m oc pm j cs ↔
      ∃ i c0, cs[i]? = some c0 ∧ mkEntry pl m oc pm (j + i) c0 = some e := by
  intro j cs
  induction cs generalizing j with
  | nil => simp [recordedAux]
  | cons c cs ih =>
    cases hm : mkEntry pl m oc pm j c with
    | none =>
      simp only [recordedAux, hm, ih]
      constructor
      · rintro ⟨i, c0, h1, h2⟩
        refine ⟨i + 1, c0, by simpa using h1, ?_⟩
        have hidx : j + (i + 1) = j + 1 + i := by omega
        rw [hidx]
        exact h2
      · rintro ⟨i, c0, h1, h2⟩
        cases i with
        | zero =>
          obtain rfl : c = c0 := by simpa using h1
          rw [Nat.add_zero, hm] at h2
          exact absurd h2 (by simp)
        | succ i =>
          refine ⟨i, c0, by simpa using h1, ?_⟩
          have hidx : j + 1 + i = j + (i + 1) := by omega
          rw [hidx]
          exact h2
    | some e0 =>
      simp only [recordedAux, hm, List.mem_cons, ih]
      constructor
      · rintro (rfl | ⟨i, c0, h1, h2⟩)
        · exact ⟨0, c, by simp, hm⟩
        · refine ⟨i + 1, c0, by simpa using h1, ?_⟩
          have hidx : j + (i + 1) = j + 1 + i := by omega
          rw [hidx]
          exact h2
      · rintro ⟨i, c0, h1, h2⟩
        cases i with
        | zero =>
          obtain rfl : c = c0 := by simpa using h1
          rw [Nat.add_zero, hm] at h2
          exact Or.inl (Option.some.inj h2).symm
        | succ i =>
          refine Or.inr ⟨i, c0, by simpa using h1, ?_⟩
          have hidx : j + 1 + i = j + (i + 1) := by omega
          rw [hidx]
          exact h2

/-- Membership in the ranked output: exactly the entries some column produces.
Combines the sort permutation with the loop characterization. -/
theorem mem_optimize_basket {pl : List String} {m : PriceMatrix} {oc : Bool}
    {pm : Penalty} {e : MarketEntry} :
    e ∈ optimize_basket pl m oc pm ↔
      ∃ j c0, m.cols[j]? = some c0 ∧ mkEntry pl m oc pm j c0 = some e := by
  rw [optimize_basket, mem_sortEntries, recordedEntries, mem_recordedAux]
  simp only [Nat.zero_add]

theorem cellAt_some_mem {r : MatrixRow} {j : ℕ} {v : ℚ}
    (h : cellAt r j = some v) : some v ∈ r.2 := by
  unfold cellAt at h
  rw [List.getD_eq_getElem?_getD] at h
  cases hg : r.2[j]? with
  | none => rw [hg] at h; exact absurd h (by simp)
  | some o =>
    rw [hg] at h
    obtain rfl : o = some v := by simpa using h
    exact List.getElem?_mem hg

theorem mem_colPairs {sel : List MatrixRow} {j : ℕ} {p : String} {q : ℚ} :
    (p, q) ∈ colPairs sel j ↔ ∃ r ∈ sel, r.1 = p ∧ cellAt r j = some q := by
  simp only [colPairs, List.mem_filterMap, Option.map_eq_some']
  constructor
  · rintro ⟨r, hr, a, ha, heq⟩
    obtain ⟨rfl, rfl⟩ : r.1 = p ∧ a = q := by simpa using heq
    exact ⟨r, hr, rfl, ha⟩
  · rintro ⟨r, hr, rfl, ha⟩
    exact ⟨r, hr, q, ha, rfl⟩

theorem colVals_nonneg {m : PriceMatrix} {pl : List String}
    (hnn : ∀ r ∈ m.rows, ∀ c ∈ r.2, ∀ q, c = some q → 0 ≤ q) (j : ℕ) :
    ∀ v ∈ colVals (selectedRows m pl) j, 0 ≤ v := by
  intro v hv
  simp only [colVals, List.mem_map] at hv
  obtain ⟨⟨p, q⟩, hpq, rfl⟩ := hv
  obtain ⟨r, hr, _, hcell⟩ := mem_colPairs.mp hpq
  have hrow : r ∈ m.rows := (List.mem_filter.mp hr).1
  exact hnn r hrow (some q) (cellAt_some_mem hcell) q rfl

/-- The per-column means the outer mean ranges over. -/
theorem mem_colMeans_nonneg {m : PriceMatrix} {pl : List String}
    (hnn : ∀ r ∈ m.rows, ∀ c ∈ r.2, ∀ q, c = some q → 0 ≤ q) :
    ∀ a ∈ (List.range m.cols.length).filterMap
      (fun j => listMean (colVals (selectedRows m pl) j)), 0 ≤ a := by
  intro a ha
  simp only [List.mem_filterMap] at ha
  obtain ⟨j, _, hj⟩ := ha
  exact listMean_nonneg (colVals_nonneg hnn j) hj

theorem avg_getD_nonneg {m : PriceMatrix} {pl : List String}
    (hnn : ∀ r ∈ m.rows, ∀ c ∈ r.2, ∀ q, c = some q → 0 ≤ q) :
    0 ≤ (avgProductPrice m pl).getD 0 := by
  cases h : avgProductPrice m pl with
  | none => simp
  | some a =>
    simp only [Option.getD_some]
    exact listMean_nonneg (mem_colMeans_nonneg hnn) h

theorem max_getD_nonneg {m : PriceMatrix} {pl : List String}
    (hnn : ∀ r ∈ m.rows, ∀ c ∈ r.2, ∀ q, c = some q → 0 ≤ q) :
    0 ≤ (maxProductPrice m pl).getD 0 := by
  cases h : maxProductPrice m pl with
  | none => simp
  | some a =>
    simp only [Option.getD_some]
    have ha := listMax_mem h
    simp only [List.mem_filterMap] at ha
    obtain ⟨j, _, hj⟩ := ha
    exact colVals_nonneg hnn j a (listMax_mem hj)

/-- When some column of the selection has a defined cell, the list of
per-column means the penalty base averages over is non-empty (so
`avg_product_price` is a defined number, not `NaN`). -/
theorem colMeans_ne_nil {m : PriceMatrix} {pl : List String} {j : ℕ}
    (hj : j < m.cols.length) (hne : colVals (selectedRows m pl) j ≠ []) :
    (List.range m.cols.length).filterMap
      (fun i => listMean (colVals (selectedRows m pl) i)) ≠ [] := by
  intro h0
  rw [List.filterMap_eq_nil_iff] at h0
  have := h0 j (List.mem_range.mpr hj)
  rw [listMean_eq_none_iff] at this
  exact hne this

theorem avgProductPrice_getD_eq {m : PriceMatrix} {pl : List String}
    (hne : (List.range m.cols.length).filterMap
      (fun i => listMean (colVals (selectedRows m pl) i)) ≠ []) :
    (avgProductPrice m pl).getD 0 =
      ((List.range m.cols.length).filterMap
        (fun i => listMean (colVals (selectedRows m pl) i))).sum /
      (((List.range m.cols.length).filterMap
        (fun i => listMean (colVals (selectedRows m pl) i))).length : ℚ) := by
  unfold avgProductPrice
  rw [listMean, if_neg (fun hc => hne (List.isEmpty_iff.mp hc))]
  rfl

/-- `df.max().max()` equals the flat maximum over every defined cell of the
selection (maximum is associative, unlike the mean). -/
theorem maxProductPrice_eq_flat (m : PriceMatrix) (pl : List String) :
    maxProductPrice m pl =
      listMax (((List.range m.cols.length).map
        (fun j => colVals (selectedRows m pl) j)).flatten) := by
  rw [listMax_flatten, List.filterMap_map]
  rfl

theorem flatMax_isSome {m : PriceMatrix} {pl : List String} {j : ℕ}
    (hj : j < m.cols.length) (hne : colVals (selectedRows m pl) j ≠ []) :
    ∃ g, listMax (((List.range m.cols.length).map
      (fun i => colVals (selectedRows m pl) i)).flatten) = some g := by
  cases hg : listMax (((List.range m.cols.length).map
      (fun i => colVals (selectedRows m pl) i)).flatten) with
  | none =>
    rw [listMax_eq_none_iff, List.flatten_eq_nil_iff] at hg
    exact absurd (hg _ (List.mem_map_of_mem _ (List.mem_range.mpr hj))) hne
  | some g => exact ⟨g, rfl⟩

/-- Appending to the basket a product that selects no additional row leaves
the selected subset unchanged (covers both an identifier matching no row and
a duplicate of an identifier already in the basket). -/
theorem selectedRows_append_eq {m : PriceMatrix} {pl : List String} {p : String}
    (h : ∀ r ∈ m.rows, r.1 = p → p ∈ pl) :
    selectedRows m (pl ++ [p]) = selectedRows m pl := by
  unfold selectedRows
  apply List.filter_congr
  intro r hr
  by_cases hrp : r.1 = p
  · have hp := h r hr hrp
    simp [List.mem_append, hrp, hp]
  · simp [List.mem_append, hrp]

/-- The sort commutes with any entry rewriting that preserves totals. -/
theorem sortEntries_map {g : MarketEntry → MarketEntry}
    (hg : ∀ e, (g e).total = e.total) (l : List MarketEntry) :
    sortEntries (l.map g) = (sortEntries l).map g := by
  have hins : ∀ (x : MarketEntry) (l : List MarketEntry),
      insertEntry (g x) (l.map g) = (insertEntry x l).map g := by
    intro x l
    induction l with
    | nil => rfl
    | cons y ys ih =>
      simp only [List.map_cons, insertEntry, hg]
      split <;> simp [ih]
  induction l with
  | nil => rfl
  | cons x xs ih => simp only [List.map_cons, sortEntries, ih, hins]

/-- When no row matches the basket, every supermarket has zero available
prices and the loop body records nothing (both skip branches yield `None`). -/
theorem mkEntry_eq_none_of_sel_nil {pl : List String} {m : PriceMatrix}
    (hsel : selectedRows m pl = []) (oc : Bool) (pm : Penalty) (j : ℕ)
    (c : String) : mkEntry pl m oc pm j c = none := by
  unfold mkEntry
  simp only [hsel]
  split
  · rfl
  · rw [if_neg]
    simp [colPairs]

/-- A column without any defined price among the selected rows is skipped. -/
theorem mkEntry_eq_none_of_colPairs_nil {pl : List String} {m : PriceMatrix}
    {j : ℕ} (hcp : colPairs (selectedRows m pl) j = []) (oc : Bool)
    (pm : Penalty) (c : String) : mkEntry pl m oc pm j c = none := by
  unfold mkEntry
  simp only [hcp]
  split
  · rfl
  · rw [if_neg]
    simp

theorem recordedAux_eq_nil {pl : List String} {m : PriceMatrix} {oc : Bool}
    {pm : Penalty} (h : ∀ j c, mkEntry pl m oc pm j c = none) :
    ∀ (j : ℕ) (cs : List String), recordedAux pl m oc pm j cs = [] := by
  intro j cs
  induction cs generalizing j with
  | nil => rfl
  | cons c cs ih => simp only [recordedAux, h j c, ih]

/-- Congruence for the column loop: if the loop bodies of two optimizer runs
agree column by column up to projections, the collected lists agree up to the
same projections. -/
theorem recordedAux_map_congr {α : Type} {f₁ f₂ : MarketEntry → α}
    {pl₁ pl₂ : List String} {m : PriceMatrix} {oc₁ oc₂ : Bool}
    {pm₁ pm₂ : Penalty}
    (h : ∀ j c, (mkEntry pl₁ m oc₁ pm₁ j c).map f₁ =
      (mkEntry pl₂ m oc₂ pm₂ j c).map f₂) :
    ∀ (j : ℕ) (cs : List String),
      (recordedAux pl₁ m oc₁ pm₁ j cs).map f₁ =
        (recordedAux pl₂ m oc₂ pm₂ j cs).map f₂ := by
  intro j cs
  induction cs generalizing j with
  | nil => rfl
  | cons c cs ih =>
    have hj := h j c
    cases h1 : mkEntry pl₁ m oc₁ pm₁ j c <;>
      cases h2 : mkEntry pl₂ m oc₂ pm₂ j c <;>
        rw [h1, h2] at hj <;>
          simp only [Option.map_some', Option.map_none'] at hj <;>
            simp only [recordedAux, h1, h2, List.map_cons]
    · exact ih j.succ
    · exact absurd hj (by simp)
    · exact absurd hj (by simp)
    · rw [Option.some.inj hj, ih j.succ]

/-- Appending a basket identifier that selects no new row: the loop body
records the same supermarkets with the same name, availability count and
product map (the totals may differ through the penalty term, which is why only
these projections are compared). -/
theorem mkEntry_append_proj {m : PriceMatrix} {pl : List String} {p : String}
    (hsel : selectedRows m (pl ++ [p]) = selectedRows m pl) (pm : Penalty)
    (j : ℕ) (c : String) :
    (mkEntry (pl ++ [p]) m false pm j c).map
        (fun e => (e.name, e.available, e.products)) =
      (mkEntry pl m false pm j c).map
        (fun e => (e.name, e.available, e.products)) := by
  unfold mkEntry
  simp only [hsel, Bool.false_eq_true, false_and, if_false]
  by_cases hlen : 0 < (colPairs (selectedRows m pl) j).length <;>
    simp [hlen]

/-- Appending a basket identifier that selects no new row raises every
recorded supermarket's missing count by exactly one. -/
theorem mkEntry_append_missing {m : PriceMatrix} {pl : List String} {p : String}
    (hsel : selectedRows m (pl ++ [p]) = selectedRows m pl) (pm : Penalty)
    (j : ℕ) (c : String) :
    (mkEntry (pl ++ [p]) m false pm j c).map MarketEntry.missing =
      (mkEntry pl m false pm j c).map (fun e => e.missing + 1) := by
  unfold mkEntry
  simp only [hsel, Bool.false_eq_true, false_and, if_false]
  by_cases hlen : 0 < (colPairs (selectedRows m pl) j).length <;>
    simp [hlen]
  omega

/-- Under the `exclude` policy a duplicate or unmatched basket identifier
changes nothing but the missing count: the loop body records the identical
entry with `missing` incremented (in particular the identical total). -/
theorem mkEntry_append_exclude {m : PriceMatrix} {pl : List String} {p : String}
    (hsel : selectedRows m (pl ++ [p]) = selectedRows m pl) (j : ℕ)
    (c : String) :
    mkEntry (pl ++ [p]) m false Penalty.exclude j c =
      (mkEntry pl m false Penalty.exclude j c).map
        (fun e => { e with missing := e.missing + 1 }) := by
  unfold mkEntry
  simp only [hsel, Bool.false_eq_true, false_and, if_false]
  by_cases hlen : 0 < (colPairs (selectedRows m pl) j).length <;>
    simp [hlen]
  omega

theorem colVals_ne_nil_of_colPairs_pos {sel : List MatrixRow} {j : ℕ}
    (h : 0 < (colPairs sel j).length) : colVals sel j ≠ [] := by
  intro h0
  rw [colVals, List.map_eq_nil_iff] at h0
  rw [h0] at h
  simp at h

/-- C1 (amended): under `penaltyMethod = average` with `missingCount > 0`, the
penalty base is the arithmetic mean of the PER-SUPERMARKET COLUMN MEANS of the
selected rows (pandas `.mean().mean()`), not the flat mean over all defined
cells; the list of column means is non-empty (so the base is a well-defined
number), and the entry's total is the sum of its available prices plus
`missingCount` times that mean of column means. -/
theorem average_total_uses_mean_of_column_means {pl : List String}
    {m : PriceMatrix} {oc : Bool} {e : MarketEntry}
    (he : e ∈ optimize_basket pl m oc Penalty.average) (hm : 0 < e.missing) :
    (List.range m.cols.length).filterMap
        (fun i => listMean (colVals (selectedRows m pl) i)) ≠ [] ∧
    e.total = (e.products.map Prod.snd).sum + (e.missing : ℚ) *
      (((List.range m.cols.length).filterMap
          (fun i => listMean (colVals (selectedRows m pl) i))).sum /
        (((List.range m.cols.length).filterMap
          (fun i => listMean (colVals (selectedRows m pl) i))).length : ℚ)) := by
  obtain ⟨j, c0, hc, hmk⟩ := mem_optimize_basket.mp he
  obtain ⟨_, hprod, _, _, hpos, _, _, htot⟩ := mkEntry_some_elim hmk
  obtain ⟨hj, _⟩ := List.getElem?_eq_some_iff.mp hc
  have hcm := colMeans_ne_nil hj (colVals_ne_nil_of_colPairs_pos hpos)
  refine ⟨hcm, ?_⟩
  rw [htot, if_pos ⟨hm, rfl⟩, hprod, avgProductPrice_getD_eq hcm]

/-- C1 (counterexample to the claim as stated): on the spec's worked example
the code's penalty base is the mean of column means, `(1.50 + 1.20)/2 = 1.35`,
not the flat mean `(1.00 + 1.20 + 2.00)/3 = 1.40` the claim asserts, so B's
total is `1.20 + 1×1.35 = 2.55`, not `2.60`: the ranked output contains a B
entry whose total differs from the claim's `sum + missing × flat mean`. -/
theorem average_penalty_flat_mean_refuted :
    optimize_basket ["Milk", "Bread"] exMatrix false Penalty.average =
      [{ name := "B", total := 51/20, available := 1, missing := 1,
         products := [("Milk", 6/5)], has_penalty := true },
       { name := "A", total := 3, available := 2, missing := 0,
         products := [("Milk", 1), ("Bread", 2)], has_penalty := false }] ∧
    specFlatAverage exMatrix ["Milk", "Bread"] = some (7/5) ∧
    avgProductPrice exMatrix ["Milk", "Bread"] = some (27/20) ∧
    (51/20 : ℚ) ≠ 6/5 + 1 * (7/5) := by
  refine ⟨?_, ?_, ?_, by norm_num⟩
  all_goals
    norm_num [optimize_basket, recordedEntries, recordedAux, mkEntry,
      sortEntries, insertEntry, avgProductPrice, maxProductPrice,
      specFlatAverage, exMatrix, listMean, listMax, colVals, colPairs,
      selectedRows, cellAt, List.range_succ, List.filterMap, List.filter]
  all_goals decide

/-- C1 (witness): the amended theorem applied to supermarket B of the worked
example, whose missing count is 1. -/
theorem average_total_uses_mean_of_column_means_witness :
    (⟨"B", 51/20, 1, 1, [("Milk", 6/5)], true⟩ : MarketEntry) ∈
      optimize_basket ["Milk", "Bread"] exMatrix false Penalty.average ∧
    (0 : ℤ) < 1 ∧
    ((List.range exMatrix.cols.length).filterMap
        (fun i => listMean (colVals (selectedRows exMatrix ["Milk", "Bread"]) i)) ≠ [] ∧
    (51/20 : ℚ) = ([("Milk", (6/5 : ℚ))].map Prod.snd).sum + ((1 : ℤ) : ℚ) *
      (((List.range exMatrix.cols.length).filterMap
          (fun i => listMean (colVals (selectedRows exMatrix ["Milk", "Bread"]) i))).sum /
        (((List.range exMatrix.cols.length).filterMap
          (fun i => listMean (colVals (selectedRows exMatrix ["Milk", "Bread"]) i))).length : ℚ))) := by
  have he : (⟨"B", 51/20, 1, 1, [("Milk", 6/5)], true⟩ : MarketEntry) ∈
      optimize_basket ["Milk", "Bread"] exMatrix false Penalty.average := by
    norm_num [optimize_basket, recordedEntries, recordedAux, mkEntry,
      sortEntries, insertEntry, avgProductPrice, maxProductPrice,
      exMatrix, listMean, listMax, colVals, colPairs,
      selectedRows, cellAt, List.range_succ, List.filterMap, List.filter]
    decide
  exact ⟨he, by norm_num,
    average_total_uses_mean_of_column_means he (by norm_num)⟩

/-- C3 (amended): when the rows selected by the basket contain no defined
cell at all, every supermarket has zero available prices and is skipped, so
`optimize_basket` returns the empty sequence — for every `onlyComplete` and
`penaltyMethod`.  No `NaN` or zero penalty base is ever folded into a
reported total (the penalty branch requires at least one available price,
which forces a defined penalty base); but no distinct signaled condition is
raised either: the result is the plain empty list. -/
theorem no_defined_cell_in_selection_yields_empty {pl : List String}
    {m : PriceMatrix} (oc : Bool) (pm : Penalty)
    (h : ∀ j, colVals (selectedRows m pl) j = []) :
    optimize_basket pl m oc pm = [] := by
  have hmk : ∀ (j : ℕ) (c : String), mkEntry pl m oc pm j c = none := by
    intro j c
    refine mkEntry_eq_none_of_colPairs_nil ?_ oc pm c
    have hj := h j
    rwa [colVals, List.map_eq_nil_iff] at hj
  rw [optimize_basket, recordedEntries, recordedAux_eq_nil hmk]
  rfl

/-- C3 (counterexample to the claim as stated): with `penaltyMethod` set to
`average` or `highest`, `onlyComplete = false`, and a selection with no
defined cell, the code surfaces no distinct signaled condition: it returns
the plain empty result list, byte-for-byte the same value the empty basket
produces, and no `UndefinedPenaltyBase`-like state exists anywhere in its
output type. -/
theorem undefined_penalty_base_not_signaled :
    optimize_basket ["Milk"] noCellMatrix false Penalty.average = [] ∧
    optimize_basket ["Milk"] noCellMatrix false Penalty.highest = [] ∧
    optimize_basket [] noCellMatrix false Penalty.average = [] ∧
    optimize_basket ["Milk"] noCellMatrix false Penalty.average =
      optimize_basket [] noCellMatrix false Penalty.average := by
  refine ⟨?_, ?_, ?_, ?_⟩ <;>
    norm_num [optimize_basket, recordedEntries, recordedAux, mkEntry,
      sortEntries, insertEntry, avgProductPrice, maxProductPrice,
      noCellMatrix, listMean, listMax, colVals, colPairs,
      selectedRows, cellAt, List.range_succ, List.filterMap, List.filter]

/-- C3 (witness): the amended theorem applied to the all-`NaN` selection. -/
theorem no_defined_cell_in_selection_yields_empty_witness :
    (∀ j, colVals (selectedRows noCellMatrix ["Milk"]) j = []) ∧
    optimize_basket ["Milk"] noCellMatrix false Penalty.average = [] := by
  have h : ∀ j, colVals (selectedRows noCellMatrix ["Milk"]) j = [] := by
    intro j
    cases j <;>
      simp [colVals, colPairs, cellAt, selectedRows, noCellMatrix,
        List.filter, List.getD]
  exact ⟨h, no_defined_cell_in_selection_yields_empty false Penalty.average h⟩

/-- C4: under `penaltyMethod = highest` with `missingCount > 0`, the penalty
base is the maximum defined cell value across ALL rows selected by the basket
(the flat/global maximum over the flattened selection, as `df.max().max()`
coincides with it), and the entry's total is the sum of its available prices
plus `missingCount` times that global maximum. -/
theorem highest_penalty_is_global_max {pl : List String} {m : PriceMatrix}
    {oc : Bool} {e : MarketEntry}
    (he : e ∈ optimize_basket pl m oc Penalty.highest) (hm : 0 < e.missing) :
    ∃ g, listMax (((List.range m.cols.length).map
        (fun i => colVals (selectedRows m pl) i)).flatten) = some g ∧
      e.total = (e.products.map Prod.snd).sum + (e.missing : ℚ) * g := by
  obtain ⟨j, c0, hc, hmk⟩ := mem_optimize_basket.mp he
  obtain ⟨_, hprod, _, _, hpos, _, _, htot⟩ := mkEntry_some_elim hmk
  obtain ⟨hj, _⟩ := List.getElem?_eq_some_iff.mp hc
  obtain ⟨g, hg⟩ := flatMax_isSome hj (colVals_ne_nil_of_colPairs_pos hpos)
  refine ⟨g, hg, ?_⟩
  rw [htot, if_neg (fun hcontra => by exact absurd hcontra.2 (by decide)),
    if_pos ⟨hm, rfl⟩, hprod, maxProductPrice_eq_flat, hg]
  rfl

/-- C4 (witness): the theorem applied to supermarket B of the worked example
under `highest`: B's total is `1.20 + 1 × 2.00 = 3.20`. -/
theorem highest_penalty_is_global_max_witness :
    (⟨"B", 16/5, 1, 1, [("Milk", 6/5)], true⟩ : MarketEntry) ∈
      optimize_basket ["Milk", "Bread"] exMatrix false Penalty.highest ∧
    (0 : ℤ) < 1 ∧
    (∃ g, listMax (((List.range exMatrix.cols.length).map
        (fun i => colVals (selectedRows exMatrix ["Milk", "Bread"]) i)).flatten) = some g ∧
      (16/5 : ℚ) = ([("Milk", (6/5 : ℚ))].map Prod.snd).sum + ((1 : ℤ) : ℚ) * g) := by
  have he : (⟨"B", 16/5, 1, 1, [("Milk", 6/5)], true⟩ : MarketEntry) ∈
      optimize_basket ["Milk", "Bread"] exMatrix false Penalty.highest := by
    norm_num [optimize_basket, recordedEntries, recordedAux, mkEntry,
      sortEntries, insertEntry, avgProductPrice, maxProductPrice,
      exMatrix, listMean, listMax, colVals, colPairs, selectedRows, cellAt,
      penalty_highest_ne_average, penalty_highest_ne_exclude,
      List.range_succ, List.filterMap, List.filter]
  exact ⟨he, by norm_num, highest_penalty_is_global_max he (by norm_num)⟩

/-- The product names of the defined pairs of a column form a sublist of the
names of the selected rows (each selected row yields at most one pair). -/
theorem colPairs_fst_sublist (sel : List MatrixRow) (j : ℕ) :
    List.Sublist ((colPairs sel j).map Prod.fst) (sel.map Prod.fst) := by
  induction sel with
  | nil => simp [colPairs]
  | cons r rs ih =>
    rw [colPairs, List.filterMap_cons]
    cases h : (cellAt r j).map (fun v => (r.1, v)) with
    | none =>
      rw [List.map_cons]
      refine List.Sublist.cons r.1 ?_
      simpa [colPairs] using ih
    | some pr =>
      obtain ⟨a, _, rfl⟩ := Option.map_eq_some'.mp h
      rw [List.map_cons, List.map_cons]
      refine List.Sublist.cons₂ r.1 ?_
      simpa [colPairs] using ih

/-- C5: with `onlyComplete = true` (and product rows unique, the PriceMatrix
invariant), every supermarket appearing in the output has a defined price for
every product of the basket, and its missing count is exactly zero. -/
theorem only_complete_entries_have_all_products {pl : List String}
    {m : PriceMatrix} {pm : Penalty} {e : MarketEntry}
    (hnd : (m.rows.map Prod.fst).Nodup)
    (he : e ∈ optimize_basket pl m true pm) :
    e.missing = 0 ∧ ∀ q ∈ pl, ∃ v, (q, v) ∈ e.products := by
  obtain ⟨j, c0, hc, hmk⟩ := mem_optimize_basket.mp he
  obtain ⟨_, hprod, _, hmiss, _, hskip, _, _⟩ := mkEntry_some_elim hmk
  have hnotpos : ¬ (0 < e.missing) := fun hp0 => hskip ⟨rfl, hp0⟩
  have hlen1 : pl.length ≤ (colPairs (selectedRows m pl) j).length := by
    rw [hmiss] at hnotpos
    omega
  have hsub : List.Sublist ((colPairs (selectedRows m pl) j).map Prod.fst)
      ((selectedRows m pl).map Prod.fst) := colPairs_fst_sublist _ j
  have hselsub : List.Sublist ((selectedRows m pl).map Prod.fst)
      (m.rows.map Prod.fst) := (List.filter_sublist m.rows).map Prod.fst
  have hndp : (((colPairs (selectedRows m pl) j).map Prod.fst)).Nodup :=
    (hsub.trans hselsub).nodup hnd
  have hsubset : ((colPairs (selectedRows m pl) j).map Prod.fst) ⊆ pl := by
    intro q hq
    obtain ⟨⟨q1, v⟩, hqv, hfst⟩ := List.mem_map.mp hq
    obtain ⟨r, hr, hr1, _⟩ := mem_colPairs.mp hqv
    have := (List.mem_filter.mp hr).2
    rw [decide_eq_true_eq] at this
    rw [← hfst]
    exact hr1 ▸ this
  have hsp : List.Subperm ((colPairs (selectedRows m pl) j).map Prod.fst) pl :=
    List.subperm_of_subset hndp hsubset
  have hlen2 : (colPairs (selectedRows m pl) j).length ≤ pl.length := by
    simpa using hsp.length_le
  have hperm : List.Perm ((colPairs (selectedRows m pl) j).map Prod.fst) pl :=
    hsp.perm_of_length_le (by simpa using hlen1)
  constructor
  · rw [hmiss]
    omega
  · intro q hq
    have hqn : q ∈ ((colPairs (selectedRows m pl) j).map Prod.fst) :=
      hperm.symm.subset hq
    obtain ⟨⟨q1, v⟩, hqv, hfst⟩ := List.mem_map.mp hqn
    refine ⟨v, ?_⟩
    rw [hprod]
    obtain rfl : q1 = q := hfst
    exact hqv

/-- C5 (witness): on the worked example with `onlyComplete = true`, only A
appears, with a price for Milk and for Bread and missing count 0. -/
theorem only_complete_entries_have_all_products_witness :
    (exMatrix.rows.map Prod.fst).Nodup ∧
    (⟨"A", 3, 2, 0, [("Milk", 1), ("Bread", 2)], false⟩ : MarketEntry) ∈
      optimize_basket ["Milk", "Bread"] exMatrix true Penalty.exclude ∧
    ((0 : ℤ) = 0 ∧ ∀ q ∈ ["Milk", "Bread"], ∃ v : ℚ,
      (q, v) ∈ [("Milk", (1 : ℚ)), ("Bread", (2 : ℚ))]) := by
  have hnd : (exMatrix.rows.map Prod.fst).Nodup := by
    simp [exMatrix]
  have he : (⟨"A", 3, 2, 0, [("Milk", 1), ("Bread", 2)], false⟩ : MarketEntry) ∈
      optimize_basket ["Milk", "Bread"] exMatrix true Penalty.exclude := by
    norm_num [optimize_basket, recordedEntries, recordedAux, mkEntry,
      sortEntries, insertEntry, avgProductPrice, maxProductPrice,
      exMatrix, listMean, listMax, colVals, colPairs, selectedRows, cellAt,
      List.range_succ, List.filterMap, List.filter]
  exact ⟨hnd, he, only_complete_entries_have_all_products hnd he⟩

/-- C6: under `penaltyMethod = exclude`, every output entry has
`hasPenalty = false` and its total is exactly the sum of that supermarket's
available prices over the selected rows (its recorded product price map),
missing products contributing nothing. -/
theorem exclude_total_is_available_sum {pl : List String} {m : PriceMatrix}
    {oc : Bool} {e : MarketEntry}
    (he : e ∈ optimize_basket pl m oc Penalty.exclude) :
    e.has_penalty = false ∧
    e.total = (e.products.map Prod.snd).sum ∧
    ∃ j, m.cols[j]? = some e.name ∧
      e.products = colPairs (selectedRows m pl) j := by
  obtain ⟨j, c0, hc, hmk⟩ := mem_optimize_basket.mp he
  obtain ⟨hname, hprod, _, _, _, _, hpen, htot⟩ := mkEntry_some_elim hmk
  refine ⟨?_, ?_, j, ?_, hprod⟩
  · rw [hpen]
    simp
  · rw [hprod, htot]
    simp [penalty_exclude_ne_average, penalty_exclude_ne_highest]
  · rw [hc, hname]

/-- C6 (witness): supermarket B of the worked example under `exclude`
(`onlyComplete = false`): total `1.20`, no penalty. -/
theorem exclude_total_is_available_sum_witness :
    (⟨"B", 6/5, 1, 1, [("Milk", 6/5)], false⟩ : MarketEntry) ∈
      optimize_basket ["Milk", "Bread"] exMatrix false Penalty.exclude ∧
    (false = false ∧
    (6/5 : ℚ) = ([("Milk", (6/5 : ℚ))].map Prod.snd).sum ∧
    ∃ j, exMatrix.cols[j]? = some "B" ∧
      [("Milk", (6/5 : ℚ))] = colPairs (selectedRows exMatrix ["Milk", "Bread"]) j) := by
  have he : (⟨"B", 6/5, 1, 1, [("Milk", 6/5)], false⟩ : MarketEntry) ∈
      optimize_basket ["Milk", "Bread"] exMatrix false Penalty.exclude := by
    norm_num [optimize_basket, recordedEntries, recordedAux, mkEntry,
      sortEntries, insertEntry, avgProductPrice, maxProductPrice,
      exMatrix, listMean, listMax, colVals, colPairs, selectedRows, cellAt,
      penalty_exclude_ne_average, penalty_exclude_ne_highest,
      List.range_succ, List.filterMap, List.filter]
  exact ⟨he, exclude_total_is_available_sum he⟩

/-- C7: with non-negative prices and distinct supermarket labels, a
supermarket that appears (with the same name) in the outputs of the
`average`, `highest` and `exclude` runs and has missing products is charged
at least its `exclude` total by both penalty policies. -/
theorem penalty_totals_dominate_exclude {pl : List String} {m : PriceMatrix}
    {ea eh ex : MarketEntry}
    (hndc : m.cols.Nodup)
    (hnn : ∀ r ∈ m.rows, ∀ c ∈ r.2, ∀ q, c = some q → 0 ≤ q)
    (ha : ea ∈ optimize_basket pl m false Penalty.average)
    (hh : eh ∈ optimize_basket pl m false Penalty.highest)
    (hx : ex ∈ optimize_basket pl m false Penalty.exclude)
    (hna : ea.name = ex.name) (hnh : eh.name = ex.name)
    (hm : 0 < ex.missing) :
    ex.total ≤ ea.total ∧ ex.total ≤ eh.total := by
  obtain ⟨ja, ca, hca, hmka⟩ := mem_optimize_basket.mp ha
  obtain ⟨jh, ch, hch, hmkh⟩ := mem_optimize_basket.mp hh
  obtain ⟨jx, cx, hcx, hmkx⟩ := mem_optimize_basket.mp hx
  obtain ⟨hnamea, hproda, _, hmissa, _, _, _, htota⟩ := mkEntry_some_elim hmka
  obtain ⟨hnameh, hprodh, _, hmissh, _, _, _, htoth⟩ := mkEntry_some_elim hmkh
  obtain ⟨hnamex, hprodx, _, hmissx, _, _, _, htotx⟩ := mkEntry_some_elim hmkx
  obtain ⟨hja, _⟩ := List.getElem?_eq_some_iff.mp hca
  have hcc_a : ca = cx := by rw [← hnamea, hna, hnamex]
  have hcax : m.cols[ja]? = m.cols[jx]? := by rw [hca, hcx, hcc_a]
  obtain rfl : ja = jx := List.getElem?_inj hja hndc hcax
  obtain ⟨hjh, _⟩ := List.getElem?_eq_some_iff.mp hch
  have hcc_h : ch = cx := by rw [← hnameh, hnh, hnamex]
  have hchx : m.cols[jh]? = m.cols[ja]? := by rw [hch, hcx, hcc_h]
  obtain rfl : jh = ja := List.getElem?_inj hjh hndc hchx
  have hmeq_a : ea.missing = ex.missing := by rw [hmissa, hmissx]
  have hmeq_h : eh.missing = ex.missing := by rw [hmissh, hmissx]
  have hma : 0 < ea.missing := hmeq_a ▸ hm
  have hmh : 0 < eh.missing := hmeq_h ▸ hm
  constructor
  · rw [htota, if_pos ⟨hma, rfl⟩, htotx,
      if_neg (fun hc => penalty_exclude_ne_average hc.2),
      if_neg (fun hc => penalty_exclude_ne_highest hc.2)]
    have hnonneg : 0 ≤ (ea.missing : ℚ) * ((avgProductPrice m pl).getD 0) :=
      mul_nonneg (by exact_mod_cast le_of_lt hma) (avg_getD_nonneg hnn)
    linarith
  · rw [htoth, if_neg (fun hc => penalty_highest_ne_average hc.2),
      if_pos ⟨hmh, rfl⟩, htotx,
      if_neg (fun hc => penalty_exclude_ne_average hc.2),
      if_neg (fun hc => penalty_exclude_ne_highest hc.2)]
    have hnonneg : 0 ≤ (eh.missing : ℚ) * ((maxProductPrice m pl).getD 0) :=
      mul_nonneg (by exact_mod_cast le_of_lt hmh) (max_getD_nonneg hnn)
    linarith

/-- C7 (witness): supermarket B of the worked example: its `exclude` total
`1.20` is below both its `average` total `2.55` and its `highest` total
`3.20`. -/
theorem penalty_totals_dominate_exclude_witness :
    exMatrix.cols.Nodup ∧
    (∀ r ∈ exMatrix.rows, ∀ c ∈ r.2, ∀ q, c = some q → 0 ≤ q) ∧
    (⟨"B", 51/20, 1, 1, [("Milk", 6/5)], true⟩ : MarketEntry) ∈
      optimize_basket ["Milk", "Bread"] exMatrix false Penalty.average ∧
    (⟨"B", 16/5, 1, 1, [("Milk", 6/5)], true⟩ : MarketEntry) ∈
      optimize_basket ["Milk", "Bread"] exMatrix false Penalty.highest ∧
    (⟨"B", 6/5, 1, 1, [("Milk", 6/5)], false⟩ : MarketEntry) ∈
      optimize_basket ["Milk", "Bread"] exMatrix false Penalty.exclude ∧
    ((6/5 : ℚ) ≤ 51/20 ∧ (6/5 : ℚ) ≤ 16/5) := by
  have hndc : exMatrix.cols.Nodup := by simp [exMatrix]
  have hnn : ∀ r ∈ exMatrix.rows, ∀ c ∈ r.2, ∀ q, c = some q → 0 ≤ q := by
    intro r hr c hc q hq
    simp only [exMatrix, List.mem_cons, List.not_mem_nil, or_false] at hr
    rcases hr with rfl | rfl <;>
      simp only [List.mem_cons, List.not_mem_nil, or_false] at hc <;>
        rcases hc with rfl | rfl <;>
          first
          | (obtain rfl : _ = q := Option.some.inj hq; norm_num)
          | exact absurd hq (by simp)
  have ha : (⟨"B", 51/20, 1, 1, [("Milk", 6/5)], true⟩ : MarketEntry) ∈
      optimize_basket ["Milk", "Bread"] exMatrix false Penalty.average := by
    norm_num [optimize_basket, recordedEntries, recordedAux, mkEntry,
      sortEntries, insertEntry, avgProductPrice, maxProductPrice,
      exMatrix, listMean, listMax, colVals, colPairs, selectedRows, cellAt,
      List.range_succ, List.filterMap, List.filter]
    decide
  have hh : (⟨"B", 16/5, 1, 1, [("Milk", 6/5)], true⟩ : MarketEntry) ∈
      optimize_basket ["Milk", "Bread"] exMatrix false Penalty.highest := by
    norm_num [optimize_basket, recordedEntries, recordedAux, mkEntry,
      sortEntries, insertEntry, avgProductPrice, maxProductPrice,
      exMatrix, listMean, listMax, colVals, colPairs, selectedRows, cellAt,
      penalty_highest_ne_average, penalty_highest_ne_exclude,
      List.range_succ, List.filterMap, List.filter]
  have hx : (⟨"B", 6/5, 1, 1, [("Milk", 6/5)], false⟩ : MarketEntry) ∈
      optimize_basket ["Milk", "Bread"] exMatrix false Penalty.exclude := by
    norm_num [optimize_basket, recordedEntries, recordedAux, mkEntry,
      sortEntries, insertEntry, avgProductPrice, maxProductPrice,
      exMatrix, listMean, listMax, colVals, colPairs, selectedRows, cellAt,
      penalty_exclude_ne_average, penalty_exclude_ne_highest,
      List.range_succ, List.filterMap, List.filter]
  exact ⟨hndc, hnn, ha, hh, hx,
    penalty_totals_dominate_exclude hndc hnn ha hh hx rfl rfl (by norm_num)⟩

/-- C8: an empty basket, or a basket none of whose identifiers matches any
matrix row, yields the empty ranked result for every `onlyComplete` and
`penaltyMethod` (and, the embedding being a total function, no exception). -/
theorem empty_or_unmatched_basket_yields_empty (pl : List String)
    (m : PriceMatrix) (oc : Bool) (pm : Penalty)
    (h : pl = [] ∨ ∀ q ∈ pl, ∀ r ∈ m.rows, r.1 ≠ q) :
    optimize_basket pl m oc pm = [] := by
  have hsel : selectedRows m pl = [] := by
    unfold selectedRows
    rw [List.filter_eq_nil_iff]
    intro r hr
    rcases h with rfl | h
    · simp
    · simp only [decide_eq_true_eq]
      intro hq
      exact h r.1 hq r hr rfl
  rw [optimize_basket, recordedEntries,
    recordedAux_eq_nil (fun j c => mkEntry_eq_none_of_sel_nil hsel oc pm j c)]
  rfl

/-- C8 (witness): the theorem applied to the empty basket and to a basket of
unknown products, on the worked example matrix. -/
theorem empty_or_unmatched_basket_yields_empty_witness :
    optimize_basket [] exMatrix true Penalty.exclude = [] ∧
    ((∀ q ∈ ["Fish"], ∀ r ∈ exMatrix.rows, r.1 ≠ q) ∧
      optimize_basket ["Fish"] exMatrix false Penalty.average = []) := by
  have hu : ∀ q ∈ ["Fish"], ∀ r ∈ exMatrix.rows, r.1 ≠ q := by
    intro q hq r hr
    obtain rfl : q = "Fish" := by simpa using hq
    simp only [exMatrix, List.mem_cons, List.not_mem_nil, or_false] at hr
    rcases hr with rfl | rfl <;> simp
  exact ⟨empty_or_unmatched_basket_yields_empty [] exMatrix true
      Penalty.exclude (Or.inl rfl),
    hu, empty_or_unmatched_basket_yields_empty ["Fish"] exMatrix false
      Penalty.average (Or.inr hu)⟩

/-- C9: every output entry's missing count is the basket length minus its
number of defined prices (its recorded product pairs for its column); and a
basket identifier matching no matrix row never contributes an available
price: appending it leaves every recorded supermarket's name, availability
and product map unchanged and raises every missing count by exactly one. -/
theorem missing_count_accounting {pl : List String} {m : PriceMatrix}
    {oc : Bool} {pm : Penalty} {e : MarketEntry} {p : String}
    (he : e ∈ optimize_basket pl m oc pm)
    (hp : ∀ r ∈ m.rows, r.1 ≠ p) :
    ((e.missing : ℤ) = (pl.length : ℤ) - (e.available : ℤ) ∧
      e.available = e.products.length ∧
      ∃ j, m.cols[j]? = some e.name ∧
        e.products = colPairs (selectedRows m pl) j) ∧
    ((recordedEntries (pl ++ [p]) m false pm).map
        (fun x => (x.name, x.available, x.products)) =
      (recordedEntries pl m false pm).map
        (fun x => (x.name, x.available, x.products)) ∧
      (recordedEntries (pl ++ [p]) m false pm).map MarketEntry.missing =
        (recordedEntries pl m false pm).map (fun x => x.missing + 1)) := by
  have hsel : selectedRows m (pl ++ [p]) = selectedRows m pl :=
    selectedRows_append_eq (fun r hr hrp => absurd hrp (hp r hr))
  constructor
  · obtain ⟨j, c0, hc, hmk⟩ := mem_optimize_basket.mp he
    obtain ⟨hname, hprod, hav, hmiss, _, _, _, _⟩ := mkEntry_some_elim hmk
    refine ⟨?_, ?_, j, ?_, hprod⟩
    · rw [hmiss, hav]
    · rw [hav, hprod]
    · rw [hc, hname]
  · exact ⟨recordedAux_map_congr (mkEntry_append_proj hsel pm) 0 m.cols,
      recordedAux_map_congr (mkEntry_append_missing hsel pm) 0 m.cols⟩

/-- C9 (witness): the theorem applied to supermarket B of the worked example
and the unknown identifier Fish. -/
theorem missing_count_accounting_witness :
    (⟨"B", 6/5, 1, 1, [("Milk", 6/5)], false⟩ : MarketEntry) ∈
      optimize_basket ["Milk", "Bread"] exMatrix false Penalty.exclude ∧
    (∀ r ∈ exMatrix.rows, r.1 ≠ "Fish") ∧
    (((1 : ℤ) = ((["Milk", "Bread"].length : ℕ) : ℤ) - ((1 : ℕ) : ℤ) ∧
      (1 : ℕ) = [("Milk", (6/5 : ℚ))].length ∧
      ∃ j, exMatrix.cols[j]? = some "B" ∧
        [("Milk", (6/5 : ℚ))] =
          colPairs (selectedRows exMatrix ["Milk", "Bread"]) j) ∧
    ((recordedEntries (["Milk", "Bread"] ++ ["Fish"]) exMatrix false
          Penalty.exclude).map (fun x => (x.name, x.available, x.products)) =
      (recordedEntries ["Milk", "Bread"] exMatrix false Penalty.exclude).map
        (fun x => (x.name, x.available, x.products)) ∧
      (recordedEntries (["Milk", "Bread"] ++ ["Fish"]) exMatrix false
          Penalty.exclude).map MarketEntry.missing =
        (recordedEntries ["Milk", "Bread"] exMatrix false Penalty.exclude).map
          (fun x => x.missing + 1))) := by
  have hp : ∀ r ∈ exMatrix.rows, r.1 ≠ "Fish" := by
    intro r hr
    simp only [exMatrix, List.mem_cons, List.not_mem_nil, or_false] at hr
    rcases hr with rfl | rfl <;> simp
  have he : (⟨"B", 6/5, 1, 1, [("Milk", 6/5)], false⟩ : MarketEntry) ∈
      optimize_basket ["Milk", "Bread"] exMatrix false Penalty.exclude := by
    norm_num [optimize_basket, recordedEntries, recordedAux, mkEntry,
      sortEntries, insertEntry, avgProductPrice, maxProductPrice,
      exMatrix, listMean, listMax, colVals, colPairs, selectedRows, cellAt,
      penalty_exclude_ne_average, penalty_exclude_ne_highest,
      List.range_succ, List.filterMap, List.filter]
  exact ⟨he, hp, missing_count_accounting he hp⟩

/-- C10: a duplicated basket identifier inflates every recorded
supermarket's missing count by one, even for supermarkets holding a defined
price for that product, and never adds the product's price again: under
`exclude` the whole ranked output is reproduced entry for entry with the same
totals and `missing` incremented, and under every penalty policy the recorded
names, availability counts and product maps are unchanged while every missing
count grows by one. -/
theorem duplicate_basket_item_inflates_missing {pl : List String}
    {m : PriceMatrix} {pm : Penalty} {p : String} (hp : p ∈ pl) :
    optimize_basket (pl ++ [p]) m false Penalty.exclude =
      (optimize_basket pl m false Penalty.exclude).map
        (fun e => { e with missing := e.missing + 1 }) ∧
    (recordedEntries (pl ++ [p]) m false pm).map
        (fun x => (x.name, x.available, x.products)) =
      (recordedEntries pl m false pm).map
        (fun x => (x.name, x.available, x.products)) ∧
    (recordedEntries (pl ++ [p]) m false pm).map MarketEntry.missing =
      (recordedEntries pl m false pm).map (fun x => x.missing + 1) := by
  have hsel : selectedRows m (pl ++ [p]) = selectedRows m pl :=
    selectedRows_append_eq (fun r hr hrp => hp)
  refine ⟨?_, recordedAux_map_congr (mkEntry_append_proj hsel pm) 0 m.cols,
    recordedAux_map_congr (mkEntry_append_missing hsel pm) 0 m.cols⟩
  have hrec : (recordedEntries (pl ++ [p]) m false Penalty.exclude).map id =
      (recordedEntries pl m false Penalty.exclude).map
        (fun e => { e with missing := e.missing + 1 }) := by
    refine recordedAux_map_congr (fun j c => ?_) 0 m.cols
    rw [mkEntry_append_exclude hsel j c]
    cases mkEntry pl m false Penalty.exclude j c <;> rfl
  rw [List.map_id] at hrec
  rw [optimize_basket, optimize_basket, hrec]
  exact @sortEntries_map (fun e => { e with missing := e.missing + 1 })
    (fun e => rfl) (recordedEntries pl m false Penalty.exclude)

/-- C10 (witness): duplicating Milk in the worked-example basket: B (which
sells Milk) goes from 1 missing to 2, A from 0 to 1, totals unchanged under
`exclude`. -/
theorem duplicate_basket_item_inflates_missing_witness :
    "Milk" ∈ ["Milk", "Bread"] ∧
    (optimize_basket (["Milk", "Bread"] ++ ["Milk"]) exMatrix false
        Penalty.exclude =
      (optimize_basket ["Milk", "Bread"] exMatrix false Penalty.exclude).map
        (fun e => { e with missing := e.missing + 1 }) ∧
    (recordedEntries (["Milk", "Bread"] ++ ["Milk"]) exMatrix false
        Penalty.average).map (fun x => (x.name, x.available, x.products)) =
      (recordedEntries ["Milk", "Bread"] exMatrix false Penalty.average).map
        (fun x => (x.name, x.available, x.products)) ∧
    (recordedEntries (["Milk", "Bread"] ++ ["Milk"]) exMatrix false
        Penalty.average).map MarketEntry.missing =
      (recordedEntries ["Milk", "Bread"] exMatrix false Penalty.average).map
        (fun x => x.missing + 1)) := by
  have hp : "Milk" ∈ ["Milk", "Bread"] := by simp
  exact ⟨hp, duplicate_basket_item_inflates_missing hp⟩
